import Mathlib

/-!
# FSR: search files by name pattern and replace them by a copy of one file

A shallow embedding of `main.go` (package `main` of Robin7Ma/FSR) and the
verification of its specification.

Layout:

* the library model: the parts of `strings`, `path/filepath`, `os`, `io`,
  `bufio` and `regexp` that `main.go` calls, over an explicit file tree;
* the program: `help`, `main`, `loopFind`, `copy`, `waitInput` and the four
  validators, in state-passing style; `main` is cut at its early returns into
  `argSwitch`, `mainDirectory`, `mainPattern`, `mainPreview` and `mainConfirm`,
  and the two handlers it passes to `loopFind` are `previewDeal` and
  `replaceDeal`;
* the theorems.

Conventions of the model.

* A file tree is a finite map from absolute paths to nodes: regular files,
  directories, sockets and symbolic links.  A path is resolved element by
  element from the root, through the directories and symbolic links it names,
  as the kernel does; `path/filepath` works on the text of a path alone.
  Paths follow the Unix rules (separator `/`, no volume names).  Hard links,
  devices, pipes and file permissions other than the read and write
  permission of a directory are not modelled.
* Go `error` values are represented by their message.
* Standard output is the list of the strings written by the successive print
  calls; standard input is the list of the strings returned by the successive
  `ReadString('\n')` calls.
* The regular-expression library and the case-folding comparison of
  `strings.EqualFold` are parameters (`Env`): every general theorem holds for
  all of them.
* The fields `handled` and `passes` of `World` are history variables: they
  record what the program did and are never read by it.
-/

namespace FSR

deriving instance DecidableEq for Except

/-! ## Library model: `strings` -/

/-- The function `strings.HasSuffix`. -/
def HasSuffix (s suffix : String) : Bool :=
  suffix.data.isSuffixOf s.data

/-- The function `strings.TrimSuffix`: `s` without the trailing `suffix`, or `s` itself. -/
def TrimSuffix (s suffix : String) : String :=
  if HasSuffix s suffix then String.mk (s.data.take (s.data.length - suffix.data.length)) else s

/-! ## Library model: `path/filepath` (Unix) -/

/-- The function `strings.Split(s, "/")` on characters. -/
def splitSlash : List Char → List (List Char)
  | [] => [[]]
  | c :: cs =>
    match splitSlash cs with
    | [] => [[c]]
    | x :: xs => if c = '/' then [] :: x :: xs else (c :: x) :: xs

/-- The function `strings.Join(xs, "/")` on characters. -/
def joinSlash : List (List Char) → List Char
  | [] => []
  | [x] => x
  | x :: y :: xs => x ++ '/' :: joinSlash (y :: xs)

/-- One path element processed by `filepath.Clean`; `stack` holds the elements
kept so far, innermost first.  Empty elements and `.` are dropped, `..`
removes the innermost element when there is one to remove, is dropped at the
root and is kept in front of a relative path. -/
def cleanStep (rooted : Bool) (stack : List (List Char)) (c : List Char) : List (List Char) :=
  if c = [] ∨ c = ['.'] then stack
  else if c = ['.', '.'] then
    match stack with
    | [] => if rooted then [] else [c]
    | top :: rest => if top = ['.', '.'] then c :: stack else rest
  else c :: stack

/-- The function `filepath.Clean` on characters. -/
def cleanChars (p : List Char) : List Char :=
  let rooted := p.head? = some '/'
  let stack := (splitSlash p).foldl (cleanStep rooted) []
  if rooted then '/' :: joinSlash stack.reverse
  else if stack = [] then ['.'] else joinSlash stack.reverse

/-- The function `filepath.Clean`. -/
def Clean (p : String) : String := String.mk (cleanChars p.data)

/-- The function `filepath.IsAbs`. -/
def IsAbs (p : String) : Bool := p.data.head? = some '/'

/-- The function `filepath.Join` of two elements: empty leading elements are ignored, the
rest is joined by `/` and cleaned. -/
def Join (a b : String) : String :=
  if a ≠ "" then Clean (a ++ "/" ++ b)
  else if b ≠ "" then Clean b
  else ""

/-- The characters of `p` up to and including its last `/`. -/
def dirPrefix (p : List Char) : List Char :=
  (p.reverse.dropWhile (fun c => c ≠ '/')).reverse

/-- The function `filepath.Dir`: the path without its last element, cleaned. -/
def Dir (p : String) : String := String.mk (cleanChars (dirPrefix p.data))

/-- The function `filepath.Base`: the last element of the path; `.` for the empty path and
`/` for a path of slashes only. -/
def Base (p : String) : String :=
  if p = "" then "."
  else
    match (splitSlash p.data).reverse.find? (fun c => c ≠ []) with
    | some c => String.mk c
    | none => "/"

/-- The function `filepath.Abs` in the working directory `cwd`. -/
def Abs (cwd p : String) : String :=
  if IsAbs p then Clean p else Join cwd p

/-! ## Library model: the file tree and `os` -/

/-- The type of a directory entry, as `os.FileMode` reports it. -/
inductive Kind
  | regular
  | directory
  | socket
  | symlink
  deriving DecidableEq, Repr

/-- A node of the file tree.  `data` is the content of a regular file or the
target of a symbolic link; `canList` and `canWrite` are the read and write
permissions of a directory (listing its entries; creating and removing
entries in it). -/
structure Node where
  kind : Kind
  data : String
  canList : Bool
  canWrite : Bool
  deriving DecidableEq, Repr

/-- A regular file with the given content. -/
def Node.file (data : String) : Node := ⟨Kind.regular, data, true, true⟩

/-- A directory with all permissions. -/
def Node.dir : Node := ⟨Kind.directory, "", true, true⟩

/-- A directory in which entries can be neither created nor removed. -/
def Node.readOnlyDir : Node := ⟨Kind.directory, "", true, false⟩

/-- A symbolic link to `target`. -/
def Node.link (target : String) : Node := ⟨Kind.symlink, target, true, true⟩

/-- The file tree: every node under its own absolute path, the one that
reaches it through directories only.  A symbolic link is a node of its own;
the other paths that reach a node through symbolic links are not keys: they
are found by resolution (`lookupNode`). -/
abbrev FS := List (String × Node)

/-- The node at a key of the tree. -/
def FS.get (fs : FS) (key : String) : Option Node :=
  match fs with
  | [] => none
  | (k, n) :: rest => if k = key then some n else FS.get rest key

/-- The tree without the node at `key`. -/
def FS.erase (fs : FS) (key : String) : FS :=
  fs.filter (fun e => e.1 ≠ key)

/-- The tree with `n` at `key`. -/
def FS.put (fs : FS) (key : String) (n : Node) : FS :=
  (key, n) :: FS.erase fs key

/-- The name under which `key` is an entry of the directory `dir`, if it is. -/
def childName (dir key : String) : Option String :=
  let pre := if dir = "/" then dir.data else dir.data ++ ['/']
  if pre.isPrefixOf key.data then
    let rest := key.data.drop pre.length
    if rest ≠ [] ∧ '/' ∉ rest then some (String.mk rest) else none
  else none

/-- Byte-wise lexical order of two strings, as `sort.Strings` uses it. -/
def strLe : List Char → List Char → Bool
  | [], _ => true
  | _ :: _, [] => false
  | a :: as, b :: bs => a.toNat < b.toNat || (a = b && strLe as bs)

/-- Insertion into a sorted list of names. -/
def insertName (x : String) : List String → List String
  | [] => [x]
  | y :: ys => if strLe x.data y.data then x :: y :: ys else y :: insertName x ys

/-- The function `sort.Strings`. -/
def sortNames (xs : List String) : List String :=
  xs.foldr insertName []

/-- The errors of path resolution. -/
inductive Errno
  | ENOENT
  | ENOTDIR
  | ELOOP
  deriving DecidableEq, Repr

/-- The message of an error of path resolution. -/
def Errno.text : Errno → String
  | Errno.ENOENT => "no such file or directory"
  | Errno.ENOTDIR => "not a directory"
  | Errno.ELOOP => "too many levels of symbolic links"

/-- The key of the directory reached through the elements `cur` (innermost
first). -/
def keyOf (cur : List (List Char)) : String :=
  String.mk ('/' :: joinSlash cur.reverse)

/-- Where the resolution of a path stands: at the existing node `key`; at the
free name `key` of an existing directory; at a symbolic link whose target
remains to be resolved from the directory `cur`; or at an error. -/
inductive Step
  | found (key : String)
  | missing (key : String)
  | link (cur : List (List Char)) (comps : List (List Char))
  | fail (e : Errno)
  deriving DecidableEq, Repr

/-- The resolution of the elements `comps` from the directory `cur`, up to the
first symbolic link that has to be followed.  Empty elements and `.` stay in
the directory, `..` goes to its parent, a name goes to the entry of that
name: a directory is entered; a symbolic link is followed unless it is the
last element and `follow` is off; any other entry must be the last element.
A name that is missing may only be the last element. -/
def stepComps (fs : FS) (follow : Bool) : List (List Char) → List (List Char) → Step
  | cur, [] => Step.found (keyOf cur)
  | cur, c :: rest =>
    if c = [] ∨ c = ['.'] then stepComps fs follow cur rest
    else if c = ['.', '.'] then stepComps fs follow cur.tail rest
    else
      match fs.get (keyOf (c :: cur)) with
      | none => if rest = [] then Step.missing (keyOf (c :: cur)) else Step.fail Errno.ENOENT
      | some n =>
        match n.kind with
        | Kind.directory => stepComps fs follow (c :: cur) rest
        | Kind.symlink =>
          if rest = [] ∧ follow = false then Step.found (keyOf (c :: cur))
          else if n.data = "" then Step.fail Errno.ENOENT
          else Step.link (if IsAbs n.data then [] else cur) (splitSlash n.data.data ++ rest)
        | _ => if rest = [] then Step.found (keyOf (c :: cur)) else Step.fail Errno.ENOTDIR

/-- The resolution of a path through at most `hops` symbolic links. -/
def resolveLoop (fs : FS) (follow : Bool) : Nat → List (List Char) → List (List Char) → Step
  | 0, cur, comps =>
    match stepComps fs follow cur comps with
    | Step.link _ _ => Step.fail Errno.ELOOP
    | s => s
  | hops + 1, cur, comps =>
    match stepComps fs follow cur comps with
    | Step.link cur1 comps1 => resolveLoop fs follow hops cur1 comps1
    | s => s

/-- The number of symbolic links the kernel follows in one resolution. -/
def maxSymlinks : Nat := 40

/-- The node a path names in the working directory `cwd`: its key and the node
there, if any (a missing last element has a key and no node).  With `follow`
a symbolic link in last position is followed, as by `stat`; without, it is
the node named, as by `lstat` and `unlink`. -/
def lookupNode (cwd : String) (fs : FS) (name : String) (follow : Bool) :
    Except Errno (String × Option Node) :=
  if name = "" then Except.error Errno.ENOENT
  else
    match resolveLoop fs follow maxSymlinks []
        (splitSlash (if IsAbs name then name.data else cwd.data ++ '/' :: name.data)) with
    | Step.found key => Except.ok (key, fs.get key)
    | Step.missing key => Except.ok (key, none)
    | Step.link _ _ => Except.error Errno.ELOOP
    | Step.fail e => Except.error e

/-- The result of `os.Lstat`: the fields of `os.FileInfo` the program reads. -/
structure FileInfo where
  Name : String
  kind : Kind
  deriving DecidableEq, Repr

/-- The function `FileInfo.IsDir`. -/
def FileInfo.IsDir (f : FileInfo) : Bool := f.kind = Kind.directory

/-- The function `FileInfo.Mode().IsRegular`. -/
def FileInfo.IsRegular (f : FileInfo) : Bool := f.kind = Kind.regular

/-- The function `os.Lstat`: a symbolic link in last position is not followed. -/
def Lstat (cwd : String) (fs : FS) (name : String) : Except String FileInfo :=
  match lookupNode cwd fs name false with
  | Except.error e => Except.error ("lstat " ++ name ++ ": " ++ e.text)
  | Except.ok (_, none) => Except.error ("lstat " ++ name ++ ": " ++ Errno.ENOENT.text)
  | Except.ok (_, some n) => Except.ok ⟨Base name, n.kind⟩

/-- The function `os.Stat`: symbolic links are followed. -/
def Stat (cwd : String) (fs : FS) (name : String) : Except String FileInfo :=
  match lookupNode cwd fs name true with
  | Except.error e => Except.error ("stat " ++ name ++ ": " ++ e.text)
  | Except.ok (_, none) => Except.error ("stat " ++ name ++ ": " ++ Errno.ENOENT.text)
  | Except.ok (_, some n) => Except.ok ⟨Base name, n.kind⟩

/-- The sorted names of the entries of a directory (`readDirNames` of
`path/filepath`: `os.Open`, `Readdirnames`, `sort.Strings`). -/
def readDirNames (cwd : String) (fs : FS) (dirname : String) : Except String (List String) :=
  match lookupNode cwd fs dirname true with
  | Except.error e => Except.error ("open " ++ dirname ++ ": " ++ e.text)
  | Except.ok (_, none) => Except.error ("open " ++ dirname ++ ": " ++ Errno.ENOENT.text)
  | Except.ok (key, some n) =>
    if n.kind ≠ Kind.directory then
      Except.error ("readdirent " ++ dirname ++ ": not a directory")
    else if n.canList = false then
      Except.error ("open " ++ dirname ++ ": permission denied")
    else
      Except.ok (sortNames (fs.filterMap (fun e => childName key e.1)))

/-- Whether entries may be created or removed in the directory holding `key`. -/
def parentWritable (fs : FS) (key : String) : Bool :=
  match fs.get (Dir key) with
  | some d => d.kind = Kind.directory && d.canWrite
  | none => false

/-- The function `os.Remove`: the entry named is removed; a symbolic link in last
position is removed itself, not its target. -/
def Remove (cwd : String) (fs : FS) (name : String) : Except String FS :=
  match lookupNode cwd fs name false with
  | Except.error e => Except.error ("remove " ++ name ++ ": " ++ e.text)
  | Except.ok (_, none) => Except.error ("remove " ++ name ++ ": " ++ Errno.ENOENT.text)
  | Except.ok (key, some n) =>
    if parentWritable fs key = false then
      Except.error ("remove " ++ name ++ ": permission denied")
    else if n.kind = Kind.directory ∧ fs.filterMap (fun e => childName key e.1) ≠ [] then
      Except.error ("remove " ++ name ++ ": directory not empty")
    else Except.ok (fs.erase key)

/-- The function `os.Open` for reading; the result is the handle of the open file (its
key). -/
def Open (cwd : String) (fs : FS) (name : String) : Except String String :=
  match lookupNode cwd fs name true with
  | Except.error e => Except.error ("open " ++ name ++ ": " ++ e.text)
  | Except.ok (_, none) => Except.error ("open " ++ name ++ ": " ++ Errno.ENOENT.text)
  | Except.ok (key, some n) =>
    if n.kind = Kind.socket then Except.error ("open " ++ name ++ ": no such device or address")
    else Except.ok key

/-- The function `os.Create`: the file is created, or truncated to length zero when it
exists; symbolic links are followed, and a link to a missing file creates
that file.  The result is the new tree and the handle of the open file. -/
def Create (cwd : String) (fs : FS) (name : String) : Except String (FS × String) :=
  match lookupNode cwd fs name true with
  | Except.error e => Except.error ("open " ++ name ++ ": " ++ e.text)
  | Except.ok (key, some n) =>
    match n.kind with
    | Kind.directory => Except.error ("open " ++ name ++ ": is a directory")
    | Kind.socket => Except.error ("open " ++ name ++ ": no such device or address")
    | Kind.symlink => Except.error ("open " ++ name ++ ": " ++ Errno.ELOOP.text)
    | Kind.regular => Except.ok (fs.put key (Node.file ""), key)
  | Except.ok (key, none) =>
    match fs.get (Dir key) with
    | none => Except.error ("open " ++ name ++ ": " ++ Errno.ENOENT.text)
    | some d =>
      if d.kind ≠ Kind.directory then Except.error ("open " ++ name ++ ": not a directory")
      else if d.canWrite = false then Except.error ("open " ++ name ++ ": permission denied")
      else Except.ok (fs.put key (Node.file ""), key)

/-- The content read from an open file. -/
def readAll (fs : FS) (handle : String) : String :=
  match fs.get handle with
  | some n => n.data
  | none => ""

/-- The function `io.Copy(destination, source)`: everything that can be read from `source`
is written to `destination`; the result is the number of bytes copied. -/
def ioCopy (fs : FS) (destination source : String) : FS × Except String Nat :=
  (fs.put destination (Node.file (readAll fs source)), Except.ok (readAll fs source).utf8ByteSize)

/-! ## Library model: `regexp` and case folding -/

/-- The environment of the process: its working directory, the
regular-expression library and the case-folding comparison.
`Compile pattern` is `none` when `regexp.Compile` returns an error, and
otherwise the `MatchString` function of the compiled expression;
`EqualFold s t` is what `strings.EqualFold` returns: whether `s` and `t` are
equal under Unicode simple case folding. -/
structure Env where
  cwd : String
  Compile : String → Option (String → Bool)
  EqualFold : String → String → Bool

/-! ## The state of a run -/

/-- The three package-level variables of `main.go`. -/
structure Globals where
  Directory : String
  FileNameRegexp : String
  Replacement : String
  deriving DecidableEq, Repr

/-- The world the program acts on: the file tree, what has been written to
standard output, and what remains to be read from standard input.  The last
two fields are history variables: the paths `loopFind` has passed to its
handler, and the globals and handled paths of every call of `loopFind`. -/
structure World where
  fs : FS
  out : List String
  stdin : List String
  handled : List String
  passes : List (Globals × List String)
  deriving DecidableEq

/-- The function `fmt.Print` and friends: one more string on standard output. -/
def World.print (w : World) (s : String) : World :=
  { w with out := w.out ++ [s] }

/-- How a call of `filepath.Walk`, or of its callback, ends: by returning `nil`,
by returning an error, by a run-time panic, or, in the model only, by using up
the recursion budget. -/
inductive Res
  | nil
  | error (e : String)
  | panic
  | outOfFuel
  deriving DecidableEq, Repr

/-- How a run of `main` ends: `main` returns, the process dies of a panic, the
process waits for input that never comes, or, in the model only, a directory
walk used up its recursion budget. -/
inductive Exit
  | returned
  | crashed
  | blocked
  | outOfFuel
  deriving DecidableEq, Repr

/-- The type `filepath.WalkFunc`. -/
abbrev WalkFunc := String → Option FileInfo → Option String → World → World × Res

/-- What a handler of `loopFind` acts on: the file tree and standard output. -/
structure Sys where
  fs : FS
  out : List String

/-- The type of the handler passed to `loopFind`; the result is the error it
returns, if any. -/
abbrev Handler := String → FileInfo → Sys → Sys × Option String

/-! ## Library model: `filepath.Walk` -/

/-- The loop of `walk` over the names of a directory; `recur` is `walk` itself
with a smaller budget. -/
def walkNames (cwd : String) (walkFn : WalkFunc)
    (recur : String → FileInfo → World → World × Res) (path : String) :
    List String → World → World × Res
  | [], w => (w, Res.nil)
  | name :: names, w =>
    match Lstat cwd w.fs (Join path name) with
    | Except.error err =>
      match walkFn (Join path name) none (some err) w with
      | (w1, Res.nil) => walkNames cwd walkFn recur path names w1
      | (w1, r) => (w1, r)
    | Except.ok fileInfo =>
      match recur (Join path name) fileInfo w with
      | (w1, Res.nil) => walkNames cwd walkFn recur path names w1
      | (w1, r) => (w1, r)

/-- The function `walk` of `path/filepath`: the callback is called on `path`; for
a directory whose names could be read and for which the callback returned
`nil`, every entry is visited in lexical order, and the first error stops the
walk. -/
def walk (cwd : String) (walkFn : WalkFunc) : Nat → String → FileInfo → World → World × Res
  | 0, _, _, w => (w, Res.outOfFuel)
  | fuel + 1, path, info, w =>
    if info.IsDir = false then walkFn path (some info) none w
    else
      match readDirNames cwd w.fs path with
      | Except.error err => walkFn path (some info) (some err) w
      | Except.ok names =>
        match walkFn path (some info) none w with
        | (w1, Res.nil) => walkNames cwd walkFn (walk cwd walkFn fuel) path names w1
        | (w1, r) => (w1, r)

/-- The function `filepath.Walk`. -/
def Walk (cwd : String) (fuel : Nat) (root : String) (fn : WalkFunc) (w : World) : World × Res :=
  match Lstat cwd w.fs root with
  | Except.error err => fn root none (some err) w
  | Except.ok info => walk cwd fn fuel root info w

/-! ## The program -/

/-- The usage text. -/
def HELP : String :=
  "\n在目录中以正则表达式搜索文件并批量替换为新文件\n\n使用方法：\n\n    1. 无参数交互运行：\n    FSR\n\n    2. 在当前目录中搜索：\n    FSR [FileNameRegexp]\n\n    3. 在指定目录中搜索：\n    FSR [Directory] [FileNameRegexp]\n\n    4. 在指定目录中搜索并替换为指定文件：\n    FSR [Directory] [FileNameRegexp] [ReplacementFile]\n\n参数说明：\n\n    [Directory]       ： 搜索目录，支持相对路径，交互模式下默认为当前目录\n    [FileNameRegexp]  ： 被搜索的文件名正则表达式\n    [Replacement]     ： 被替换的文件，支持相对路径\n\n"

/-- The function `help`. -/
def help (w : World) : World := w.print HELP

/-- The function `validateFromDir`. -/
def validateFromDir (cwd : String) (fs : FS) (input : String) : String :=
  match Stat cwd fs input with
  | Except.error _ => "不存在或无法读取"
  | Except.ok fi => if fi.IsDir = false then "不是有效的目录" else ""

/-- The function `validateSearchFile`. -/
def validateSearchFile (env : Env) (input : String) : String :=
  match env.Compile input with
  | none => "不是有效的正则表达式"
  | some _ => ""

/-- The function `validateReplaceFile`. -/
def validateReplaceFile (cwd : String) (fs : FS) (input : String) : String :=
  match Stat cwd fs input with
  | Except.error _ => "不存在或无法读取"
  | Except.ok fi => if fi.IsDir then "不能替换目录" else ""

/-- The function `validateConfirm`. -/
def validateConfirm (input : String) : String :=
  if input ≠ "" ∧ input ≠ "Y" ∧ input ≠ "N" ∧ input ≠ "y" ∧ input ≠ "n" then "请输入 Y 或 N "
  else ""

/-- The loop of `waitInput` over the strings that the successive calls of
`ReadString` return.  When they are used up every further call returns the
empty string (end of input), the loop prompts for ever and nothing is returned:
the result is `none`. -/
def waitInputLoop (name : String) (validate : String → String) :
    List String → List String → List String × List String × Option (String × Bool)
  | [], out => ([], out, none)
  | input :: rest, out =>
    if input = "" then
      waitInputLoop name validate rest (out ++ ["请输入 " ++ name ++ " >"])
    else if input = "exit" then
      (rest, out ++ ["请输入 " ++ name ++ " >"], some ("", true))
    else if validate (TrimSuffix (TrimSuffix input "\n") "\r") ≠ "" then
      waitInputLoop name validate rest
        (out ++ ["请输入 " ++ name ++ " >",
          name ++ " 输入错误：" ++ validate (TrimSuffix (TrimSuffix input "\n") "\r")
            ++ "，请重新输入！\n"])
    else
      (rest, out ++ ["请输入 " ++ name ++ " >"],
        some (TrimSuffix (TrimSuffix input "\n") "\r", false))

/-- The function `waitInput`: the accepted value and the cancellation flag, or
`none` when the loop never ends. -/
def waitInput (name : String) (validate : String → String) (w : World) :
    World × Option (String × Bool) :=
  match waitInputLoop name validate w.stdin w.out with
  | (stdin, out, r) => ({ w with stdin := stdin, out := out }, r)

/-- The function `copy`. -/
def copy (cwd : String) (src dst : String) (fs : FS) : FS × Except String Nat :=
  match Stat cwd fs src with
  | Except.error err => (fs, Except.error err)
  | Except.ok sourceFileStat =>
    if sourceFileStat.IsRegular = false then
      (fs, Except.error (src ++ " is not a regular file"))
    else
      match Open cwd fs src with
      | Except.error err => (fs, Except.error err)
      | Except.ok source =>
        match Create cwd fs dst with
        | Except.error err => (fs, Except.error err)
        | Except.ok (fs1, destination) => ioCopy fs1 destination source

/-- The callback that `loopFind` passes to `filepath.Walk`.  A pattern that did
not compile leaves a nil expression, and `MatchString` on it is a nil-pointer
dereference.  The path is recorded in `handled` when the handler is called. -/
def loopFindFunc (env : Env) (g : Globals) (serachFileReg : Option (String → Bool))
    (deal : Handler) : WalkFunc :=
  fun p f err w =>
    match err with
    | some e => (w.print (e ++ "\n"), Res.error e)
    | none =>
      match f with
      | none => (w, Res.panic)
      | some f =>
        if f.IsDir then (w, Res.nil)
        else if env.EqualFold (Abs env.cwd p) (Abs env.cwd g.Replacement) then (w, Res.nil)
        else
          match serachFileReg with
          | none => (w, Res.panic)
          | some re =>
            if re f.Name = false then (w, Res.nil)
            else
              match deal p f ⟨w.fs, w.out⟩ with
              | (s, none) =>
                ({ w with fs := s.fs, out := s.out, handled := w.handled ++ [p] }, Res.nil)
              | (s, some e) =>
                ({ w with fs := s.fs, out := s.out, handled := w.handled ++ [p] }, Res.error e)

/-- The function `loopFind`, with the result of `filepath.Walk` (which the
source discards) returned for inspection. -/
def loopFind (env : Env) (g : Globals) (deal : Handler) (fuel : Nat) (w : World) : World × Res :=
  Walk env.cwd fuel g.Directory (loopFindFunc env g (env.Compile g.FileNameRegexp) deal) w

/-- The handler of the preview pass. -/
def previewDeal : Handler :=
  fun p _ s => (⟨s.fs, s.out ++ [p ++ "\n"]⟩, none)

/-- The handler of the destructive pass.  The result of `copy` is discarded, as
in the source. -/
def replaceDeal (env : Env) (g : Globals) : Handler :=
  fun p _ s =>
    match Remove env.cwd s.fs p with
    | Except.error err => (s, some (p ++ " 删除失败：" ++ err))
    | Except.ok fs1 =>
      (⟨(copy env.cwd g.Replacement (Join (Dir p) (Base g.Replacement)) fs1).1,
        s.out ++ [p ++ " 已删除！\n", Join (Dir p) (Base g.Replacement) ++ " 已复制！\n"]⟩, none)

/-- The switch of `main` on the number of arguments: the globals it sets, or
`none` when it prints the usage text and returns. -/
def argSwitch (args : List String) : Option Globals :=
  match args with
  | [_] => some ⟨"", "", ""⟩
  | [_, a1] => if a1 = "/?" then none else some ⟨"./", a1, ""⟩
  | [_, a1, a2] => some ⟨a1, a2, ""⟩
  | [_, a1, a2, a3] => some ⟨a1, a2, a3⟩
  | _ => none

/-- A call of `loopFind` from `main`: the paths handled during the call are
recorded together with the globals. -/
def runPass (env : Env) (g : Globals) (deal : Handler) (fuel : Nat) (w : World) : World × Res :=
  match loopFind env g deal fuel { w with handled := [] } with
  | (w1, r) => ({ w1 with passes := w1.passes ++ [(g, w1.handled)] }, r)

/-- The part of `main` from the confirmation prompt on. -/
def mainConfirm (env : Env) (g : Globals) (fuel : Nat) (w : World) : World × Exit :=
  match waitInput "是否确认要替换（Y-是[默认]，N-否）" validateConfirm w with
  | (w1, none) => (w1, Exit.blocked)
  | (w1, some (confirm, exit)) =>
    if exit = true ∨ confirm = "N" ∨ confirm = "n" then
      (w1, Exit.returned)
    else
      match runPass env g (replaceDeal env g) fuel (w1.print "开始替换\n") with
      | (w2, Res.panic) => (w2, Exit.crashed)
      | (w2, Res.outOfFuel) => (w2, Exit.outOfFuel)
      | (w2, _) => (w2.print "替换完成！\n", Exit.returned)

/-- The part of `main` from the preview pass on. -/
def mainPreview (env : Env) (g : Globals) (fuel : Nat) (w : World) : World × Exit :=
  match runPass env g previewDeal fuel (w.print "需要被替换的文件如下：\n") with
  | (w1, Res.panic) => (w1, Exit.crashed)
  | (w1, Res.outOfFuel) => (w1, Exit.outOfFuel)
  | (w1, _) =>
    if g.Replacement = "" then
      match waitInput "替换后的文件" (validateReplaceFile env.cwd w1.fs) w1 with
      | (w2, none) => (w2, Exit.blocked)
      | (w2, some (v, exit)) =>
        if exit then (w2, Exit.returned)
        else
          mainConfirm env { g with FileNameRegexp := v } fuel
            (w2.print ("替换后的文件为：" ++ g.Replacement ++ "\n"))
    else
      mainConfirm env g fuel (w1.print ("替换后的文件为：" ++ g.Replacement ++ "\n"))

/-- The part of `main` from the pattern prompt on. -/
def mainPattern (env : Env) (g : Globals) (fuel : Nat) (w : World) : World × Exit :=
  if g.FileNameRegexp = "" then
    match waitInput "搜索文件正则表达式" (validateSearchFile env) w with
    | (w1, none) => (w1, Exit.blocked)
    | (w1, some (v, exit)) =>
      if exit then (w1, Exit.returned)
      else mainPreview env { g with FileNameRegexp := v } fuel w1
  else mainPreview env g fuel w

/-- The part of `main` after the switch on the arguments. -/
def mainDirectory (env : Env) (g : Globals) (fuel : Nat) (w : World) : World × Exit :=
  if (if validateFromDir env.cwd w.fs g.Directory ≠ "" then "" else g.Directory) = "" then
    match waitInput "搜索目录" (validateFromDir env.cwd w.fs) w with
    | (w1, none) => (w1, Exit.blocked)
    | (w1, some (v, exit)) =>
      if exit then (w1, Exit.returned)
      else
        mainPattern env { g with Directory := v } fuel (w1.print ("搜索目录为：" ++ v ++ "\n"))
  else
    mainPattern env g fuel (w.print ("搜索目录为：" ++ g.Directory ++ "\n"))

/-- The function `main`, run with the command line `args` (program name
first). -/
def main (env : Env) (args : List String) (fuel : Nat) (w : World) : World × Exit :=
  match argSwitch args with
  | none => (help w, Exit.returned)
  | some g => mainDirectory env g fuel w

/-! ## A small regular-expression library and a sample tree

The general theorems hold for every `Env`.  Their instances, and the runs
that are evaluated, use a working directory `/home/u`, an implementation of
a fragment of the RE2 syntax, and case folding on the ASCII range.  The
fragment has literal characters, `\` followed by a punctuation character, `.`,
a leading `^` and a trailing `$`; within it `regexp.Compile` and `MatchString`
behave as defined here, and in particular the pattern `(` has a missing
closing parenthesis and does not compile.  On strings of ASCII characters
`strings.EqualFold` is `asciiEqualFold`.  No evaluated run uses a pattern
outside the fragment or a path with a character outside ASCII. -/

/-- One element of a pattern: a literal character, or `.`. -/
inductive Atom
  | lit (c : Char)
  | any
  deriving DecidableEq, Repr

/-- The characters with a special meaning in a pattern. -/
def metaChars : List Char :=
  ['\\', '.', '+', '*', '?', '(', ')', '|', '[', ']', '{', '}', '^', '$']

/-- The elements of a pattern, and whether it ends with `$`. -/
def parseAtoms : List Char → Option (List Atom × Bool)
  | [] => some ([], false)
  | ['$'] => some ([], true)
  | '\\' :: c :: rest =>
    if c ∈ metaChars then (parseAtoms rest).map (fun r => (Atom.lit c :: r.1, r.2)) else none
  | '.' :: rest => (parseAtoms rest).map (fun r => (Atom.any :: r.1, r.2))
  | c :: rest =>
    if c ∈ metaChars then none else (parseAtoms rest).map (fun r => (Atom.lit c :: r.1, r.2))

/-- Whether the elements match a prefix of the text (the whole text when
`toEnd`). -/
def matchHere (toEnd : Bool) : List Atom → List Char → Bool
  | [], t => !toEnd || t.isEmpty
  | _ :: _, [] => false
  | Atom.lit c :: as, d :: t => c = d && matchHere toEnd as t
  | Atom.any :: as, d :: t => d ≠ '\n' && matchHere toEnd as t

/-- Compilation of a pattern of the fragment. -/
def miniCompile (pattern : String) : Option (String → Bool) :=
  match pattern.data with
  | '^' :: rest =>
    (parseAtoms rest).map (fun r s => matchHere r.2 r.1 s.data)
  | pat =>
    (parseAtoms pat).map (fun r s => s.data.tails.any (matchHere r.2 r.1))

/-- Equality after mapping `A`..`Z` to `a`..`z`. -/
def asciiEqualFold (s t : String) : Bool :=
  s.data.map Char.toLower == t.data.map Char.toLower

/-- The environment of the sample runs. -/
def sampleEnv : Env := ⟨"/home/u", miniCompile, asciiEqualFold⟩

/-- A world with the given tree and input, nothing printed and no history. -/
def World.init (fs : FS) (stdin : List String) : World := ⟨fs, [], stdin, [], []⟩

/-- The tree of the scenario of the specification: `/tmp/x` holds `a.conf`,
`b.conf` and `sub/c.conf`, and `/tmp/new.conf` is the replacement. -/
def scenarioFS : FS :=
  [("/", Node.dir), ("/home", Node.dir), ("/home/u", Node.dir), ("/tmp", Node.dir),
   ("/tmp/new.conf", Node.file "NEW"), ("/tmp/x", Node.dir),
   ("/tmp/x/a.conf", Node.file "A"), ("/tmp/x/b.conf", Node.file "B"),
   ("/tmp/x/sub", Node.dir), ("/tmp/x/sub/c.conf", Node.file "C")]

/-- The tree in which the replacement lies in the searched directory. -/
def sameDirFS : FS :=
  [("/", Node.dir), ("/tmp", Node.dir), ("/tmp/x", Node.dir),
   ("/tmp/x/a.conf", Node.file "A"), ("/tmp/x/new.conf", Node.file "NEW")]

/-- The tree in which nothing can be removed from the searched directory. -/
def readOnlyFS : FS :=
  [("/", Node.dir), ("/tmp", Node.dir), ("/tmp/new.conf", Node.file "NEW"),
   ("/tmp/x", Node.readOnlyDir), ("/tmp/x/a.conf", Node.file "A"),
   ("/tmp/x/b.conf", Node.file "B")]

theorem walkNames_inv (P : World → Prop) (cwd : String) (walkFn : WalkFunc)
    (recur : String → FileInfo → World → World × Res) (path : String)
    (herr : ∀ p f e w, P w → P (walkFn p f (some e) w).1)
    (hrec : ∀ p f w, Lstat cwd w.fs p = Except.ok f → P w → P (recur p f w).1) :
    ∀ (names : List String) (w : World), P w → P (walkNames cwd walkFn recur path names w).1 := by
  intro names
  induction names with
  | nil => intro w hw; simpa [walkNames] using hw
  | cons name names ih =>
    intro w hw
    unfold walkNames
    split
    · rename_i err _
      have h1 := herr (Join path name) none err w hw
      split
      · rename_i w1 hres
        rw [hres] at h1
        exact ih w1 h1
      · rename_i w1 r _ hres
        rw [hres] at h1
        exact h1
    · rename_i fileInfo hls
      have h1 := hrec (Join path name) fileInfo w hls hw
      split
      · rename_i w1 hres
        rw [hres] at h1
        exact ih w1 h1
      · rename_i w1 r _ hres
        rw [hres] at h1
        exact h1

/-- An invariant of `walk`: a property of the world that the callback keeps
when it is called with an error, and when it is called on a path with what
`Lstat` reports for it. -/
theorem walk_inv (P : World → Prop) (cwd : String) (walkFn : WalkFunc)
    (herr : ∀ p f e w, P w → P (walkFn p f (some e) w).1)
    (hfile : ∀ p f w, Lstat cwd w.fs p = Except.ok f → P w → P (walkFn p (some f) none w).1) :
    ∀ (fuel : Nat) (path : String) (info : FileInfo) (w : World),
      Lstat cwd w.fs path = Except.ok info → P w → P (walk cwd walkFn fuel path info w).1 := by
  intro fuel
  induction fuel with
  | zero => intro path info w _ hw; simpa [walk] using hw
  | succ fuel ih =>
    intro path info w hls hw
    unfold walk
    split
    · exact hfile _ _ _ hls hw
    · split
      · exact herr _ _ _ _ hw
      · rename_i names _
        have h1 := hfile path info w hls hw
        split
        · rename_i w1 hres
          rw [hres] at h1
          exact walkNames_inv P cwd walkFn _ path herr (fun p f w hl hw => ih p f w hl hw)
            names w1 h1
        · rename_i w1 r _ hres
          rw [hres] at h1
          exact h1

theorem Walk_inv (P : World → Prop) (cwd : String) (fuel : Nat) (root : String) (fn : WalkFunc)
    (herr : ∀ p f e w, P w → P (fn p f (some e) w).1)
    (hfile : ∀ p f w, Lstat cwd w.fs p = Except.ok f → P w → P (fn p (some f) none w).1)
    (w : World) (hw : P w) : P (Walk cwd fuel root fn w).1 := by
  unfold Walk
  split
  · exact herr _ _ _ _ hw
  · rename_i info hls
    exact walk_inv P cwd fn herr hfile _ _ _ _ hls hw

/-- An invariant of `loopFind`: a property of the world that printing keeps,
and that the handler keeps on every path it can be called on: a path for
which `Lstat` reports an entry that is not a directory, that is not the
replacement and whose name matches. -/
theorem loopFind_inv (P : World → Prop) (env : Env) (g : Globals) (deal : Handler)
    (hprint : ∀ w s, P w → P (w.print s))
    (hdeal : ∀ p f w re, Lstat env.cwd w.fs p = Except.ok f → f.IsDir = false →
      env.EqualFold (Abs env.cwd p) (Abs env.cwd g.Replacement) = false →
      env.Compile g.FileNameRegexp = some re → re f.Name = true → P w →
      P { w with fs := (deal p f ⟨w.fs, w.out⟩).1.fs, out := (deal p f ⟨w.fs, w.out⟩).1.out,
                 handled := w.handled ++ [p] })
    (fuel : Nat) (w : World) (hw : P w) : P (loopFind env g deal fuel w).1 := by
  unfold loopFind
  apply Walk_inv P _ _ _ _ _ _ w hw
  · intro p f e w hw
    exact hprint _ _ hw
  · intro p f w hls hw
    unfold loopFindFunc
    simp only
    split
    · exact hw
    · rename_i hdir
      split
      · exact hw
      · rename_i hfold
        split
        · exact hw
        · rename_i re hre
          split
          · exact hw
          · rename_i hmatch
            have := hdeal p f w re hls (by simpa using hdir) (by simpa using hfold) hre
              (by simpa using hmatch) hw
            split
            · rename_i s hres
              rw [hres] at this
              exact this
            · rename_i s e hres
              rw [hres] at this
              exact this

/-! ## Lemmas: the file tree -/

theorem waitInputLoop_some (name : String) (validate : String → String) (stdin out : List String)
    (v : String) (c : Bool) (h : (waitInputLoop name validate stdin out).2.2 = some (v, c)) :
    (c = false → (∃ raw ∈ stdin, raw ≠ "" ∧ v = TrimSuffix (TrimSuffix raw "\n") "\r")
      ∧ validate v = "") ∧ (c = true → v = "") := by
  induction stdin generalizing out with
  | nil => simp [waitInputLoop] at h
  | cons input rest ih =>
    unfold waitInputLoop at h
    split at h
    · have := ih _ h
      refine ⟨fun hc => ?_, this.2⟩
      obtain ⟨⟨raw, hraw, h1, h2⟩, h3⟩ := this.1 hc
      exact ⟨⟨raw, List.mem_cons_of_mem _ hraw, h1, h2⟩, h3⟩
    · split at h
      · simp at h
        refine ⟨fun hc => ?_, fun _ => h.1.symm⟩
        rw [h.2] at hc
        simp at hc
      · split at h
        · have := ih _ h
          refine ⟨fun hc => ?_, this.2⟩
          obtain ⟨⟨raw, hraw, h1, h2⟩, h3⟩ := this.1 hc
          exact ⟨⟨raw, List.mem_cons_of_mem _ hraw, h1, h2⟩, h3⟩
        · rename_i h1 h2 h3
          simp at h
          refine ⟨fun _ => ⟨⟨input, List.mem_cons_self _ _, h1, h.1.symm⟩, ?_⟩, fun hc => ?_⟩
          · rw [← h.1]
            simpa using h3
          · rw [h.2] at hc
            simp at hc

theorem waitInputLoop_isSome (name : String) (validate : String → String)
    (stdin out : List String) :
    (waitInputLoop name validate stdin out).2.2.isSome = true ↔
      ∃ raw ∈ stdin, raw = "exit" ∨
        (raw ≠ "" ∧ validate (TrimSuffix (TrimSuffix raw "\n") "\r") = "") := by
  induction stdin generalizing out with
  | nil => simp [waitInputLoop]
  | cons input rest ih =>
    unfold waitInputLoop
    split
    · rename_i h1
      rw [ih]
      constructor
      · rintro ⟨raw, hraw, h⟩
        exact ⟨raw, List.mem_cons_of_mem _ hraw, h⟩
      · rintro ⟨raw, hraw, h⟩
        rcases List.mem_cons.1 hraw with rfl | hraw
        · rcases h with h | h
          · simp [h] at h1
          · exact absurd h1 h.1
        · exact ⟨raw, hraw, h⟩
    · split
      · rename_i h1 h2
        simp only [Option.isSome_some, true_iff]
        exact ⟨input, List.mem_cons_self _ _, Or.inl h2⟩
      · split
        · rename_i h1 h2 h3
          rw [ih]
          constructor
          · rintro ⟨raw, hraw, h⟩
            exact ⟨raw, List.mem_cons_of_mem _ hraw, h⟩
          · rintro ⟨raw, hraw, h⟩
            rcases List.mem_cons.1 hraw with rfl | hraw
            · rcases h with h | h
              · exact absurd h h2
              · exact absurd h.2 h3
            · exact ⟨raw, hraw, h⟩
        · rename_i h1 h2 h3
          simp only [Option.isSome_some, true_iff]
          exact ⟨input, List.mem_cons_self _ _, Or.inr ⟨h1, by simpa using h3⟩⟩

theorem waitInput_snd (name : String) (validate : String → String) (w : World) :
    (waitInput name validate w).2 = (waitInputLoop name validate w.stdin w.out).2.2 := rfl

/-- Claim C9.  The prompt loop returns exactly when the input holds the
cancellation word or a non-empty line that passes validation.  When it returns
a value that is not cancelled, the value is an input line with its trailing
newline and then its trailing carriage return removed, and it passes
validation; when it returns cancelled, the value is the empty string. -/
theorem C9_waitInput_returns_validated_line (name : String) (validate : String → String)
    (w : World) :
    ((waitInput name validate w).2.isSome = true ↔
      ∃ raw ∈ w.stdin, raw = "exit" ∨
        (raw ≠ "" ∧ validate (TrimSuffix (TrimSuffix raw "\n") "\r") = "")) ∧
    (∀ v, (waitInput name validate w).2 = some (v, false) →
      (∃ raw ∈ w.stdin, raw ≠ "" ∧ v = TrimSuffix (TrimSuffix raw "\n") "\r") ∧
        validate v = "") ∧
    (∀ v, (waitInput name validate w).2 = some (v, true) → v = "") := by
  rw [waitInput_snd]
  refine ⟨waitInputLoop_isSome _ _ _ _, fun v h => ?_, fun v h => ?_⟩
  · exact (waitInputLoop_some _ _ _ _ _ _ h).1 rfl
  · exact (waitInputLoop_some _ _ _ _ _ _ h).2 rfl

/-- An instance of C9: after the rejected line `Q`, the line `y` followed by a
carriage return and a newline is returned as `y`. -/
theorem C9_waitInput_witness :
    (waitInput "confirm" validateConfirm (World.init [] ["Q\n", "y\r\n"])).2 = some ("y", false) ∧
      ((∃ raw ∈ (World.init [] ["Q\n", "y\r\n"]).stdin,
          raw ≠ "" ∧ "y" = TrimSuffix (TrimSuffix raw "\n") "\r") ∧ validateConfirm "y" = "") :=
  ⟨by decide,
    (C9_waitInput_returns_validated_line "confirm" validateConfirm
      (World.init [] ["Q\n", "y\r\n"])).2.1 "y" (by decide)⟩

/-! ## Theorems: argument resolution -/

/-- Claim C7.  With no extra argument the three globals stay empty; one extra
argument other than `/?` becomes the pattern and the directory is `./`; two
become directory and pattern; three become directory, pattern and replacement;
the run then continues with these globals.  With the sole argument `/?`, with
more than three extra arguments, or with an empty argument vector, `main`
prints the usage text and returns: nothing is read from standard input and
the file tree and the history are untouched. -/
theorem C7_argument_resolution (env : Env) (fuel : Nat) (w : World)
    (prog a1 a2 a3 a4 : String) (more : List String) :
    argSwitch [prog] = some ⟨"", "", ""⟩ ∧
    argSwitch [prog, a1] = (if a1 = "/?" then none else some ⟨"./", a1, ""⟩) ∧
    argSwitch [prog, a1, a2] = some ⟨a1, a2, ""⟩ ∧
    argSwitch [prog, a1, a2, a3] = some ⟨a1, a2, a3⟩ ∧
    main env [prog] fuel w = mainDirectory env ⟨"", "", ""⟩ fuel w ∧
    main env [prog, a1] fuel w =
      (if a1 = "/?" then (w.print HELP, Exit.returned)
       else mainDirectory env ⟨"./", a1, ""⟩ fuel w) ∧
    main env [prog, a1, a2] fuel w = mainDirectory env ⟨a1, a2, ""⟩ fuel w ∧
    main env [prog, a1, a2, a3] fuel w = mainDirectory env ⟨a1, a2, a3⟩ fuel w ∧
    main env (prog :: a1 :: a2 :: a3 :: a4 :: more) fuel w = (w.print HELP, Exit.returned) ∧
    main env [] fuel w = (w.print HELP, Exit.returned) ∧
    (w.print HELP).fs = w.fs ∧ (w.print HELP).stdin = w.stdin ∧
    (w.print HELP).out = w.out ++ [HELP] ∧ (w.print HELP).passes = w.passes := by
  refine ⟨rfl, rfl, rfl, rfl, rfl, ?_, rfl, rfl, rfl, rfl, rfl, rfl, rfl, rfl⟩
  by_cases h : a1 = "/?"
  · simp [main, argSwitch, h, help]
  · simp [main, argSwitch, h]

/-! ## Theorems: the replacement is never handled -/

theorem waitInput_frame (name : String) (validate : String → String) (w : World) :
    (waitInput name validate w).1.fs = w.fs ∧ (waitInput name validate w).1.passes = w.passes :=
  ⟨rfl, rfl⟩

theorem runPass_passes (env : Env) (g : Globals) (deal : Handler) (fuel : Nat) (w : World) :
    ∀ e ∈ (runPass env g deal fuel w).1.passes, e ∈ w.passes ∨ e.1 = g := by
  have h := loopFind_inv (fun w1 => w1.passes = w.passes) env g deal
    (fun w1 s h => h) (fun p f w1 re _ _ _ _ _ h => h) fuel { w with handled := [] } rfl
  intro e he
  simp only [runPass, List.mem_append, List.mem_singleton] at he
  rcases he with he | he
  · rw [h] at he
    exact Or.inl he
  · right
    rw [he]

theorem mainConfirm_passes (env : Env) (g : Globals) (fuel : Nat) (w : World) :
    ∀ e ∈ (mainConfirm env g fuel w).1.passes, e ∈ w.passes ∨ e.1 = g := by
  obtain ⟨_, hps⟩ := waitInput_frame "是否确认要替换（Y-是[默认]，N-否）" validateConfirm w
  unfold mainConfirm
  split
  · rename_i w1 hres
    rw [hres] at hps
    simp only at hps
    intro e he
    rw [← hps]
    exact Or.inl he
  · rename_i w1 confirm exit hres
    rw [hres] at hps
    simp only at hps
    split
    · intro e he
      rw [← hps]
      exact Or.inl he
    · have h2 := runPass_passes env g (replaceDeal env g) fuel (w1.print "开始替换\n")
      split
      all_goals
        rename_i hres2
        rw [hres2] at h2
        intro e he
        rw [← hps]
        exact h2 e he

/-- With a replacement named on the command line, every pass that the part of
`main` from the preview on records ran with the same three globals. -/
theorem mainPreview_passes (env : Env) (g : Globals) (fuel : Nat) (w : World)
    (hr : g.Replacement ≠ "") :
    ∀ e ∈ (mainPreview env g fuel w).1.passes, e ∈ w.passes ∨ e.1 = g := by
  have h1 := runPass_passes env g previewDeal fuel (w.print "需要被替换的文件如下：\n")
  unfold mainPreview
  split
  · rename_i hres
    rw [hres] at h1
    exact h1
  · rename_i hres
    rw [hres] at h1
    exact h1
  · rename_i w1 r _ _ hres
    rw [hres] at h1
    rw [if_neg hr]
    intro e he
    rcases mainConfirm_passes env g fuel _ e he with h | h
    · exact h1 e h
    · exact Or.inr h

/-! ## Evaluated runs -/

/-- The scenario of the specification, run with the replacement on the command
line and the answer `y`: the three matched files are deleted, each of the two
directories gains `new.conf` with content `NEW`, and nothing else changes. -/
theorem scenario_run :
    main sampleEnv ["FSR", "/tmp/x", "\\.conf$", "/tmp/new.conf"] 10
        (World.init scenarioFS ["y\n"]) =
      (⟨[("/tmp/x/sub/new.conf", Node.file "NEW"), ("/tmp/x/new.conf", Node.file "NEW"),
          ("/", Node.dir), ("/home", Node.dir), ("/home/u", Node.dir), ("/tmp", Node.dir),
          ("/tmp/new.conf", Node.file "NEW"), ("/tmp/x", Node.dir), ("/tmp/x/sub", Node.dir)],
        ["搜索目录为：/tmp/x\n", "需要被替换的文件如下：\n", "/tmp/x/a.conf\n", "/tmp/x/b.conf\n",
          "/tmp/x/sub/c.conf\n", "替换后的文件为：/tmp/new.conf\n",
          "请输入 是否确认要替换（Y-是[默认]，N-否） >", "开始替换\n",
          "/tmp/x/a.conf 已删除！\n", "/tmp/x/new.conf 已复制！\n",
          "/tmp/x/b.conf 已删除！\n", "/tmp/x/new.conf 已复制！\n",
          "/tmp/x/sub/c.conf 已删除！\n", "/tmp/x/sub/new.conf 已复制！\n", "替换完成！\n"],
        [], ["/tmp/x/a.conf", "/tmp/x/b.conf", "/tmp/x/sub/c.conf"],
        [(⟨"/tmp/x", "\\.conf$", "/tmp/new.conf"⟩,
            ["/tmp/x/a.conf", "/tmp/x/b.conf", "/tmp/x/sub/c.conf"]),
          (⟨"/tmp/x", "\\.conf$", "/tmp/new.conf"⟩,
            ["/tmp/x/a.conf", "/tmp/x/b.conf", "/tmp/x/sub/c.conf"])]⟩, Exit.returned) := by
  decide

/-- Claim C1, at the failing input: directory and pattern on the command line,
the replacement `/tmp/new.conf` typed at the prompt, then `y`.  The prompt's
value is stored in `FileNameRegexp`: the preview pass runs with the pattern
`\.conf$` and handles three paths, the destructive pass runs with the pattern
`/tmp/new.conf` and an empty `Replacement`, and handles none. -/
theorem C1_prompted_replacement_overwrites_pattern :
    (main sampleEnv ["FSR", "/tmp/x", "\\.conf$"] 10
        (World.init scenarioFS ["/tmp/new.conf\n", "y\n"])).1.passes =
      [(⟨"/tmp/x", "\\.conf$", ""⟩, ["/tmp/x/a.conf", "/tmp/x/b.conf", "/tmp/x/sub/c.conf"]),
       (⟨"/tmp/x", "/tmp/new.conf", ""⟩, [])] ∧
    (main sampleEnv ["FSR", "/tmp/x", "\\.conf$"] 10
        (World.init scenarioFS ["/tmp/new.conf\n", "y\n"])).1.fs = scenarioFS ∧
    (main sampleEnv ["FSR", "/tmp/x", "\\.conf$"] 10
        (World.init scenarioFS ["/tmp/new.conf\n", "y\n"])).2 = Exit.returned := by
  decide

/-- Claim C3, at the failing input: the replacement `/tmp/x/new.conf` lies in the
searched directory next to the matched file `/tmp/x/a.conf`.  The destructive
pass completes, the deletion succeeds and `copy` returns no error, but the
destination is the replacement itself: `os.Create` truncates it before it is
read, and the file that held `NEW` ends up empty. -/
theorem C3_replacement_in_matched_directory_is_truncated :
    (main sampleEnv ["FSR", "/tmp/x", "\\.conf$", "/tmp/x/new.conf"] 10
        (World.init sameDirFS ["y\n"])).2 = Exit.returned ∧
    (main sampleEnv ["FSR", "/tmp/x", "\\.conf$", "/tmp/x/new.conf"] 10
        (World.init sameDirFS ["y\n"])).1.passes =
      [(⟨"/tmp/x", "\\.conf$", "/tmp/x/new.conf"⟩, ["/tmp/x/a.conf"]),
       (⟨"/tmp/x", "\\.conf$", "/tmp/x/new.conf"⟩, ["/tmp/x/a.conf"])] ∧
    Remove "/home/u" sameDirFS "/tmp/x/a.conf" = Except.ok (FS.erase sameDirFS "/tmp/x/a.conf") ∧
    Join (Dir "/tmp/x/a.conf") (Base "/tmp/x/new.conf") = "/tmp/x/new.conf" ∧
    (copy "/home/u" "/tmp/x/new.conf" "/tmp/x/new.conf"
        (FS.erase sameDirFS "/tmp/x/a.conf")).2 = Except.ok 0 ∧
    sameDirFS.get "/tmp/x/new.conf" = some (Node.file "NEW") ∧
    (main sampleEnv ["FSR", "/tmp/x", "\\.conf$", "/tmp/x/new.conf"] 10
        (World.init sameDirFS ["y\n"])).1.fs.get "/tmp/x/new.conf" = some (Node.file "") := by
  decide

/-- Claim C5, at the failing input: the pattern `(` on the command line does not
compile.  No path is handled, but the walk does not complete: at the first
file that is neither a directory nor the replacement, `MatchString` is called
on the nil expression and the process dies of the panic. -/
theorem C5_uncompilable_pattern_panics :
    (sampleEnv.Compile "(").isNone = true ∧
    (loopFind sampleEnv ⟨"/tmp/x", "(", "/tmp/new.conf"⟩ previewDeal 10
        (World.init scenarioFS [])).2 = Res.panic ∧
    (loopFind sampleEnv ⟨"/tmp/x", "(", "/tmp/new.conf"⟩ previewDeal 10
        (World.init scenarioFS [])).1.handled = [] ∧
    (main sampleEnv ["FSR", "/tmp/x", "(", "/tmp/new.conf"] 10
        (World.init scenarioFS ["y\n"])).2 = Exit.crashed ∧
    (main sampleEnv ["FSR", "/tmp/x", "(", "/tmp/new.conf"] 10
        (World.init scenarioFS ["y\n"])).1.out =
      ["搜索目录为：/tmp/x\n", "需要被替换的文件如下：\n"] := by
  decide

/-- Claim C6, at the failing input: nothing can be removed from `/tmp/x`.  The
deletion of `/tmp/x/a.conf` fails, the handler returns an error message that
holds the path and the cause, and the walk stops with it; but `loopFind`
discards what the walk returns, and the output of `main` goes straight from
the start banner to the completion message. -/
theorem C6_delete_failure_is_not_printed :
    Remove "/home/u" readOnlyFS "/tmp/x/a.conf" =
      Except.error "remove /tmp/x/a.conf: permission denied" ∧
    (loopFind sampleEnv ⟨"/tmp/x", "\\.conf$", "/tmp/new.conf"⟩
        (replaceDeal sampleEnv ⟨"/tmp/x", "\\.conf$", "/tmp/new.conf"⟩) 10
        (World.init readOnlyFS [])).2 =
      Res.error "/tmp/x/a.conf 删除失败：remove /tmp/x/a.conf: permission denied" ∧
    (main sampleEnv ["FSR", "/tmp/x", "\\.conf$", "/tmp/new.conf"] 10
        (World.init readOnlyFS ["y\n"])).1.out =
      ["搜索目录为：/tmp/x\n", "需要被替换的文件如下：\n", "/tmp/x/a.conf\n", "/tmp/x/b.conf\n",
        "替换后的文件为：/tmp/new.conf\n", "请输入 是否确认要替换（Y-是[默认]，N-否） >",
        "开始替换\n", "替换完成！\n"] ∧
    (main sampleEnv ["FSR", "/tmp/x", "\\.conf$", "/tmp/new.conf"] 10
        (World.init readOnlyFS ["y\n"])).1.fs = readOnlyFS := by
  decide

/-- Claim C10, at the failing input: the replacement named on the command line
does not exist.  Every `copy` returns the error of `os.Stat`; the result is
discarded, the success message is printed for each destination, no error
appears in the output, and no destination file exists afterwards. -/
theorem C10_copy_failure_reported_as_success :
    (copy "/home/u" "/tmp/missing.conf" "/tmp/x/missing.conf"
        (FS.erase scenarioFS "/tmp/x/a.conf")).2 =
      Except.error "stat /tmp/missing.conf: no such file or directory" ∧
    (main sampleEnv ["FSR", "/tmp/x", "\\.conf$", "/tmp/missing.conf"] 10
        (World.init scenarioFS ["y\n"])).1.out =
      ["搜索目录为：/tmp/x\n", "需要被替换的文件如下：\n", "/tmp/x/a.conf\n", "/tmp/x/b.conf\n",
        "/tmp/x/sub/c.conf\n", "替换后的文件为：/tmp/missing.conf\n",
        "请输入 是否确认要替换（Y-是[默认]，N-否） >", "开始替换\n",
        "/tmp/x/a.conf 已删除！\n", "/tmp/x/missing.conf 已复制！\n",
        "/tmp/x/b.conf 已删除！\n", "/tmp/x/missing.conf 已复制！\n",
        "/tmp/x/sub/c.conf 已删除！\n", "/tmp/x/sub/missing.conf 已复制！\n", "替换完成！\n"] ∧
    (main sampleEnv ["FSR", "/tmp/x", "\\.conf$", "/tmp/missing.conf"] 10
        (World.init scenarioFS ["y\n"])).1.fs =
      [("/", Node.dir), ("/home", Node.dir), ("/home/u", Node.dir), ("/tmp", Node.dir),
       ("/tmp/new.conf", Node.file "NEW"), ("/tmp/x", Node.dir), ("/tmp/x/sub", Node.dir)] := by
  decide

end FSR
